import Mathlib

/-!
# Verification of the QNET adjustment engine

Shallow embedding, in Lean 4, of the parts of the QNET / pysurv least-squares
adjustment engine that the specification talks about:

* the robust-weighting helper `inf_to_zero` (`src/lib/pysurv/utils/utils.py`),
* the `refreshable_property` cache used by `AdjustmentResults`
  (`src/lib/pysurv/utils/utils.py`, `src/lib/pysurv/adjustment/adjustment_results.py`),
* the `Solver` iteration loop (`src/lib/pysurv/adjustment/solver.py`),
* the sigma / variance helpers of `Solver`,
* the error-ellipse derivation (`src/lib/pysurv/adjustment/results.py`),
* the unknown indexer (`src/lib/pysurv/adjustment/matrix_constructors/indexer_matrix_x.py`),
* the weighting-method tables (`src/infrastructure/weighting_methods.py`,
  `src/utils/weighting_methods.py`).

Floating-point values are modelled over `ℚ`; the nonlinear primitives that
numpy supplies (`np.sqrt`, `np.arctan2`, `np.mod`) are abstracted as explicit
function parameters, so every definition stays executable and the algebraic
structure of the source code is preserved verbatim.
-/

namespace QNET

/-! ## Floating-point values with non-finite elements

`pysurv.utils.utils.inf_to_zero` manipulates numpy arrays whose entries can be
NaN or ±infinity.  We model a float as either a finite rational or one of the
three non-finite elements. -/

inductive FVal where
  | fin (q : ℚ)
  | posInf
  | negInf
  | nan
deriving DecidableEq, Repr

/-- `np.isfinite` on a single entry. -/
def FVal.isFinite : FVal → Bool
  | .fin _ => true
  | _ => false

/-- One entry of `np.nan_to_num(v, nan=np.nan, neginf=0, posinf=0)`:
+∞ and −∞ become 0, NaN is kept (the call passes `nan=np.nan`), finite
values are unchanged. -/
def nanToNum : FVal → FVal
  | .posInf => .fin 0
  | .negInf => .fin 0
  | x => x

/-- One entry of the wrapper produced by `inf_to_zero` in
`src/lib/pysurv/utils/utils.py`: finite entries go through the wrapped
weighting function `func`, non-finite entries keep their `nanToNum` image
(the wrapped function is only applied on the `np.isfinite` mask). -/
def inf_to_zero_entry (func : ℚ → ℚ) (x : FVal) : FVal :=
  if x.isFinite then
    match x with
    | .fin q => .fin (func q)
    | _ => x
  else nanToNum x

/-- The decorator `inf_to_zero` applied to a whole vector of normalized
values (elementwise numpy semantics). -/
def inf_to_zero (func : ℚ → ℚ) (v : List FVal) : List FVal :=
  v.map (inf_to_zero_entry func)

/-! ## The `refreshable_property` cache of `AdjustmentResults`

`AdjustmentResults` stores its derived fields in the instance `__dict__`,
which we model as an association list from field names to values (all values
are modelled as naturals; only equality of values matters for the claims).
Every derived field is declared as
`@refreshable_property(refresh="_is_deprecated", reset_all=True)`, so a
single staleness flag (`_is_deprecated`) gates all of them and a refresh
clears the whole cache (`reset_object_cache`).  Recomputing a field reads
only the solver state, modelled as the current iteration counter `cur`. -/

abbrev Cache := List (String × ℕ)

/-- `AdjustmentResults._is_deprecated`
(`src/lib/pysurv/adjustment/adjustment_results.py`, lines 32–34):
the solver's iteration counter is strictly greater than the cached `n_iter`
value, defaulting to 0 when `n_iter` is not cached. -/
def is_deprecated (cur : ℕ) (c : Cache) : Bool :=
  decide ((c.lookup "n_iter").getD 0 < cur)

/-- `refreshable_property._get_value` (`src/lib/pysurv/utils/utils.py`,
lines 73–81) for a field declared with `refresh="_is_deprecated"` and
`reset_all=True`: if the staleness flag is set or the field is absent, the
whole cache is cleared (`reset_object_cache`) and the field recomputed;
otherwise the cached value is returned untouched.  The result triple is
(returned value, cache afterwards, whether a recomputation happened). -/
def get_value (compute : String → ℕ → ℕ) (cur : ℕ) (name : String) (c : Cache) :
    ℕ × Cache × Bool :=
  if is_deprecated cur c || (c.lookup name).isNone then
    (compute name cur, [(name, compute name cur)], true)
  else
    ((c.lookup name).getD 0, c, false)

/-! ## Weighting-method tables

`src/infrastructure/weighting_methods.py`: the `robust` enum (twenty robust
methods) and the `WEIGHTING_METHODS` dictionary mapping UI labels either to a
robust method or to `None` (for "Ordinary" and "Weighted"), plus
`get_default_tuning_constants`. -/

inductive Robust where
  | huber
  | slope
  | hampel
  | danish
  | epanechnikov
  | tukey
  | jacobi
  | exponential
  | cra
  | error_func
  | cauchy
  | t
  | bell
  | chain
  | andrews
  | wave
  | half_wave
  | wigner
  | ellipse_curve
  | trim
deriving DecidableEq, Repr

/-- The dictionary `WEIGHTING_METHODS` of
`src/infrastructure/weighting_methods.py`, lines 36–59: label ↦ robust
method, with `none` for the two non-robust entries. -/
def WEIGHTING_METHODS : List (String × Option Robust) :=
  [ ("Ordinary", none)
  , ("Weighted", none)
  , ("Huber", some .huber)
  , ("Slope", some .slope)
  , ("Hampel", some .hampel)
  , ("Danish", some .danish)
  , ("Epanechnikov", some .epanechnikov)
  , ("Tukey", some .tukey)
  , ("Jacobi", some .jacobi)
  , ("Exponential", some .exponential)
  , ("Choice Rule of Alternative", some .cra)
  , ("Error Function", some .error_func)
  , ("Cauchy", some .cauchy)
  , ("T distribution", some .t)
  , ("Bell Curve", some .bell)
  , ("Chain Curve", some .chain)
  , ("Andrews", some .andrews)
  , ("Wave", some .wave)
  , ("Half-wave", some .half_wave)
  , ("Wigner", some .wigner)
  , ("Ellipse Curve", some .ellipse_curve)
  , ("Trim", some .trim) ]

/-- `get_default_tuning_constants` of
`src/infrastructure/weighting_methods.py`, lines 62–86, on a robust method. -/
def get_default_tuning_constants : Robust → List ℚ
  | .huber => [1.345]
  | .slope => [2, 2]
  | .hampel => [1.7, 3.4, 8.5]
  | .danish => [2.5]
  | .epanechnikov => [3.674, 2]
  | .tukey => [4.685, 2]
  | .jacobi => [4.687, 1]
  | .exponential => [2, 2]
  | .cra => [2, 2]
  | .error_func => [1.414, 2]
  | .cauchy => [2.385, 2]
  | .t => [1, 2]
  | .bell => [1, 1]
  | .chain => [1]
  | .andrews => [4.207]
  | .wave => [2.5]
  | .half_wave => [2.5]
  | .wigner => [3.137]
  | .ellipse_curve => [2.5]
  | .trim => [2.5]

/-- Tuning constants attached to a table entry: `tuning_constants.get(func,
tuple())` yields the empty tuple when the entry carries no robust method. -/
def entry_tuning_constants : Option Robust → List ℚ
  | none => []
  | some m => get_default_tuning_constants m

/-! ## Solver sigma and variance helpers (`src/lib/pysurv/adjustment/solver.py`) -/

/-- A non-fatal `InvalidVarianceWarning` as emitted by
`Solver._calculate_sigma`: it reports how many variances were negative and
the current iteration number (the python message interpolates
`invalid.size` and `self.current_iter`). -/
structure VarianceWarning where
  count : ℕ
  iteration : ℕ
deriving DecidableEq, Repr

/-- `Solver._calculate_sigma` (`src/lib/pysurv/adjustment/solver.py`,
lines 147–156): collect the negative variances; if any exist, warn with
their count and the current iteration and clip the array at zero
(`np.clip(var_v, a_min=0, a_max=None)`); finally take the elementwise
square root (`np.sqrt`, abstracted as the parameter `sqrt`).  Returns the
emitted warnings together with the resulting array. -/
def calculate_sigma (sqrt : ℚ → ℚ) (current_iter : ℕ) (var_v : List ℚ) :
    List VarianceWarning × List ℚ :=
  let invalid := var_v.filter (fun x => x < 0)
  if 0 < invalid.length then
    ([⟨invalid.length, current_iter⟩], (var_v.map (fun x => max x 0)).map sqrt)
  else
    ([], var_v.map sqrt)

/-- `Solver._calculate_coord_coorections_variance`
(`src/lib/pysurv/adjustment/solver.py`, lines 208–218): the sum of squared
coordinate corrections, weighted elementwise by the point weights when a
point-weight matrix exists, divided by the movable-tie-point count. -/
def calculate_coord_coorections_variance (n_movable : ℕ)
    (point_weights : Option (List ℚ)) (coord_corrections : List ℚ) : ℚ :=
  let squared_corrections :=
    match point_weights with
    | some w => (coord_corrections.zipWith (fun c wi => c ^ 2 * wi) w).sum
    | none => (coord_corrections.map (fun c => c ^ 2)).sum
  squared_corrections / (n_movable : ℚ)

/-- `Solver._get_coord_corrections_variance`
(`src/lib/pysurv/adjustment/solver.py`, lines 202–206): the weighted mean
square above when there are movable tie points, and exactly 1 otherwise. -/
def get_coord_corrections_variance (n_movable : ℕ)
    (point_weights : Option (List ℚ)) (coord_corrections : List ℚ) : ℚ :=
  if 0 < n_movable then
    calculate_coord_coorections_variance n_movable point_weights coord_corrections
  else 1

/-- `Solver.coord_correction_sigmas` (`src/lib/pysurv/adjustment/solver.py`,
lines 63–67) in the case where the per-iteration variance lists are
non-empty: the guard checks `coord_correction_variances` for `None`, but the
returned value is `np.sqrt(self.residual_variances)`. -/
def coord_correction_sigmas (sqrt : ℚ → ℚ)
    (residual_variances _coord_correction_variances : List ℚ) : List ℚ :=
  residual_variances.map sqrt

/-- `Solver.residual_sigmas` (`src/lib/pysurv/adjustment/solver.py`,
lines 50–54) in the same non-empty case: `np.sqrt(self.residual_variances)`. -/
def residual_sigmas (sqrt : ℚ → ℚ) (residual_variances : List ℚ) : List ℚ :=
  residual_variances.map sqrt

/-- What the claim says `Solver.coord_correction_sigmas` computes: the
elementwise square root of `coord_correction_variances` (stated for
comparison with the source-derived `coord_correction_sigmas`). -/
def claimed_coord_correction_sigmas (sqrt : ℚ → ℚ)
    (_residual_variances coord_correction_variances : List ℚ) : List ℚ :=
  coord_correction_variances.map sqrt

/-! ## The solver iteration loop (`src/lib/pysurv/adjustment/solver.py`)

`Solver.iterate` runs `DenseIteration.run()` (which forms the normal
equations and solves them) and, on success, commits the increments to the
control coordinates and advances the iteration counter;
`Solver.solve` repeats `iterate` until `_check_condition` fires.

`DenseIteration` (`dense_iteration.py`) and `config_solver`
(`config_solver.py`) are not under `src/`; only `solver.py`, which calls
them, is.  Modelled from the spec: one call of `DenseIteration.run()` at
counter value `n` is an element of `IterStep` supplied by an environment
`env : ℕ → IterStep` — it either fails to converge (`svd_converge = false`,
state untouched) or succeeds, in which case the iteration counter is
incremented (spec §3: "current iteration counter (starts at 0, incremented
each successful iterate)") and `Solver._process_successful_iteration` adds
the increment matrix to the control coordinates.  `coord_increments` is the
vector of coordinate-increment magnitudes compared against the threshold
(spec §4.4: "every coordinate increment magnitude is ≤ the configured
threshold").  Rebuilding the X/Y/W matrices (`_prepare_iteration`) reads
the coordinates but never changes them or the counter, so it does not
appear in the state. -/

/-- The data produced by one `DenseIteration.run()` call (modelled from the
spec, see above): the SVD convergence flag, the increments committed to the
coordinates on success, and the coordinate-increment magnitudes checked by
`Solver._is_increments_within_threshold`. -/
structure IterStep where
  svd_converge : Bool
  increments : List ℚ
  coord_increments : List ℚ
deriving DecidableEq, Repr

/-- The solver state visible to the loop: the iteration counter
(`DenseIteration._current`), the control-point coordinates (flattened), and
the coordinate-increment magnitudes of the last completed run. -/
structure SolverState where
  current : ℕ
  coords : List ℚ
  last_coord_increments : List ℚ
deriving DecidableEq, Repr

/-- Modelled from the spec: the named solver-configuration profile
(`config_solver.py` is not under `src/`) — a maximum iteration count and a
convergence threshold (spec §4.4/§6). -/
structure ConfigSolver where
  max_iter : ℕ
  threshold : ℚ
deriving DecidableEq, Repr

/-- The combined state change of one successful iteration:
`DenseIteration.run()` advances the counter and `Solver._update_controls`
adds the increment matrix to the control coordinates
(`controls.loc[:, coordinate_columns] += increment_matrix`). -/
def advance (env : ℕ → IterStep) (s : SolverState) : SolverState :=
  { current := s.current + 1
    coords := s.coords.zipWith (· + ·) (env s.current).increments
    last_coord_increments := (env s.current).coord_increments }

/-- `advance` applied `n` times. -/
def advanceN (env : ℕ → IterStep) (s : SolverState) : ℕ → SolverState
  | 0 => s
  | n + 1 => advance env (advanceN env s n)

/-- `Solver.iterate` (`src/lib/pysurv/adjustment/solver.py`, lines 105–112):
prepare matrices (no state change), then return `False` if the solve did not
converge — leaving the state untouched — and otherwise commit the successful
iteration and return `True`. -/
def Solver.iterate (env : ℕ → IterStep) (s : SolverState) : Bool × SolverState :=
  if (env s.current).svd_converge then (true, advance env s) else (false, s)

/-- `Solver._is_max_iter_exceeded` (lines 194–196):
`self._iteration._current >= self._config_solver.max_iter`. -/
def is_max_iter_exceeded (cfg : ConfigSolver) (s : SolverState) : Bool :=
  decide (cfg.max_iter ≤ s.current)

/-- `Solver._is_increments_within_threshold` (lines 198–200):
`all(self._iteration.coord_increments <= self._config_solver.threshold)`. -/
def is_increments_within_threshold (cfg : ConfigSolver) (s : SolverState) : Bool :=
  s.last_coord_increments.all (fun x => decide (x ≤ cfg.threshold))

/-- The stopping condition of `Solver._check_condition` (lines 188–192): the
threshold check, evaluated first (python short-circuit `or`), or the
max-iteration check. -/
def check_condition_stop (cfg : ConfigSolver) (s : SolverState) : Bool :=
  is_increments_within_threshold cfg s || is_max_iter_exceeded cfg s

/-- `Solver.solve` together with `Solver._check_condition`
(`src/lib/pysurv/adjustment/solver.py`, lines 99–103 and 188–192):
`solve` calls `iterate`; a failed iteration returns `False` immediately; a
successful one stops with `True` when `_check_condition`'s disjunction
holds and otherwise recurses.  The returned pair carries the final solver
state alongside python's boolean result.  Termination: each successful
iteration increments the counter, and the recursion only continues while
the counter is below `max_iter`. -/
def Solver.solve (env : ℕ → IterStep) (cfg : ConfigSolver) (s : SolverState) :
    Bool × SolverState :=
  match h : Solver.iterate env s with
  | (false, s') => (false, s')
  | (true, s') =>
    if check_condition_stop cfg s' then (true, s')
    else Solver.solve env cfg s'
termination_by cfg.max_iter + 1 - s.current
decreasing_by
  simp only [Solver.iterate] at h
  split at h
  · have hcur : s'.current = s.current + 1 := by
      cases h with
      | refl => rfl
    have hmax : ¬ cfg.max_iter ≤ s'.current := by
      intro hle
      have : is_max_iter_exceeded cfg s' = true := by
        simpa [is_max_iter_exceeded] using hle
      simp [check_condition_stop, this] at *
    omega
  · cases h

/-! ## The unknown indexer
(`src/lib/pysurv/adjustment/matrix_constructors/indexer_matrix_x.py`)

The controls table is a grid of coordinate cells (rows = control points,
columns = coordinate columns); a cell is `some q` when the stored value is
finite (`np.isfinite`) and `none` when it is missing/non-finite (a fixed
component).  `_map_coordinate_index` fills an integer grid of the same shape
with `INVALID_INDEX` and overwrites the finite cells, in row-major order,
with `np.arange(np.count_nonzero(mask))`. -/

/-- Modelled from the spec: the invalid sentinel `INVALID_INDEX` from
`pysurv.adjustment._constants` (that module is not under `src/`; spec §3
only calls it "sentinel invalid").  Taken to be `-1`, the one value
consistent with `_map_orientation_index` starting at
`coordinate_indices.max().max() + 1` even when no coordinate is estimated. -/
def INVALID_INDEX : ℤ := -1

/-- Row-major assignment of consecutive column indices, starting at `k`, to
the finite cells of one flattened sequence of cells; non-finite cells get
`INVALID_INDEX`.  Returns the next free index and the index list. -/
def assignCells (k : ℕ) : List (Option ℚ) → ℕ × List ℤ
  | [] => (k, [])
  | none :: rest =>
    let (k', xs) := assignCells k rest
    (k', INVALID_INDEX :: xs)
  | some _ :: rest =>
    let (k', xs) := assignCells (k + 1) rest
    (k', (k : ℤ) :: xs)

/-- Row-by-row assignment over the whole grid, threading the counter through
the rows — numpy's row-major `np.arange` placement over the finite mask. -/
def assignRows (k : ℕ) : List (List (Option ℚ)) → ℕ × List (List ℤ)
  | [] => (k, [])
  | r :: rs =>
    let (k1, r') := assignCells k r
    let (k2, rs') := assignRows k1 rs
    (k2, r' :: rs')

/-- `IndexerMatrixX._map_coordinate_index` (lines 69–80): indices 0,1,…
assigned in row-major order over the finite coordinate values, the invalid
sentinel everywhere else. -/
def map_coordinate_index (grid : List (List (Option ℚ))) : List (List ℤ) :=
  (assignRows 0 grid).2

/-- The largest entry of the index grid, as computed by
`coordinate_indices.max().max()` — the fold starts from the sentinel, which
is what pandas returns for a grid with no valid index. -/
def index_grid_max (idx : List (List ℤ)) : ℤ :=
  (idx.flatten).foldl max INVALID_INDEX

/-- `IndexerMatrixX._map_orientation_index` (lines 82–91): the stations that
have an orientation (`dropna`) get consecutive indices
`np.arange(start_idx, start_idx + len(orientations))` where
`start_idx = coordinate_indices.max().max() + 1`. -/
def map_orientation_index (grid : List (List (Option ℚ)))
    (orientations : List String) : List (String × ℤ) :=
  let start_idx := index_grid_max (map_coordinate_index grid) + 1
  (List.range orientations.length).zipWith
    (fun i st => (st, start_idx + (i : ℤ))) orientations

/-- The number of finite cells of a flattened cell list
(`np.count_nonzero(mask)`). -/
def countFinite (cells : List (Option ℚ)) : ℕ :=
  (cells.filter Option.isSome).length

/-- The specification of the index assigned to the `i`-th cell in row-major
order: the number of finite cells strictly before it when the cell itself is
finite, the invalid sentinel otherwise. -/
def specIndex (cells : List (Option ℚ)) (i : ℕ) : ℤ :=
  if (cells.getD i none).isSome then (countFinite (cells.take i) : ℤ)
  else INVALID_INDEX

/-! ## Error ellipses (`src/lib/pysurv/adjustment/results.py`)

`Results._get_coord_error_elipses` walks the full controls index; for each
point it slices the 2×2 block of `covariance_X` at labels
`[(point, "x"), (point, "y")]`.  `covariance_X` is indexed by the *valid*
(estimated) coordinate labels only, so the slice exists exactly when the
point has both `x` and `y` estimated; a pandas `.loc` on a missing label
raises `KeyError`, modelled as the block lookup returning `none`.  The
nonlinear numpy primitives are abstract parameters: `sqrt` for `np.sqrt`,
`atan2` for `np.arctan2`, `fmod` for `np.mod`, and `pi` for `np.pi`. -/

/-- A 2×2 coordinate covariance block: `var_x`, `var_y`, `cov_xy`
(`cov_matrices[i]` with its symmetric off-diagonal entry). -/
structure CovBlock where
  var_x : ℚ
  var_y : ℚ
  cov_xy : ℚ
deriving DecidableEq, Repr

/-- One row of the error-ellipse table. -/
structure ElipseRow where
  a : ℚ
  b : ℚ
  phi : ℚ
deriving DecidableEq, Repr

/-- The ellipse parameters of one point
(`src/lib/pysurv/adjustment/results.py`, lines 93–108): semi-axes
`sqrt(term_1 ± term_2)` and orientation `np.mod(phi, np.pi)`. -/
def coord_error_elipse_row (sqrt : ℚ → ℚ) (atan2 : ℚ → ℚ → ℚ)
    (fmod : ℚ → ℚ → ℚ) (pi : ℚ) (blk : CovBlock) : ElipseRow :=
  let term_1 := (blk.var_x + blk.var_y) / 2
  let term_2 := sqrt (((blk.var_x - blk.var_y) / 2) ^ 2 + blk.cov_xy ^ 2)
  { a := sqrt (term_1 + term_2)
    b := sqrt (term_1 - term_2)
    phi := fmod (atan2 (2 * blk.cov_xy) (blk.var_x - blk.var_y) / 2) pi }

/-- The possible outcomes of `Results._get_coord_error_elipses`. -/
inductive ElipseOutcome where
  | noXY
  | keyError (point : String)
  | ok (rows : List (String × ElipseRow))
deriving DecidableEq, Repr

/-- Whether the outcome is a produced table. -/
def ElipseOutcome.isOk : ElipseOutcome → Bool
  | .ok _ => true
  | _ => false

/-- The python `for` loop over `coord_idx`: collect every point's 2×2 block,
stopping with the first `KeyError`. -/
def collectBlocks (covBlock : String → Option CovBlock) :
    List String → Except String (List (String × CovBlock))
  | [] => .ok []
  | p :: ps =>
    match covBlock p with
    | none => .error p
    | some blk =>
      match collectBlocks covBlock ps with
      | .error q => .error q
      | .ok rest => .ok ((p, blk) :: rest)

/-- `Results._get_coord_error_elipses`
(`src/lib/pysurv/adjustment/results.py`, lines 80–111): return nothing when
no coordinate column is `x` or `y`
(`if not any(col in ["x", "y"] for col in coord_columns): return`); then
slice every control point's 2×2 covariance block and compute the ellipse
parameters from it. -/
def get_coord_error_elipses (sqrt : ℚ → ℚ) (atan2 : ℚ → ℚ → ℚ)
    (fmod : ℚ → ℚ → ℚ) (pi : ℚ) (coord_columns : List String)
    (points : List String) (covBlock : String → Option CovBlock) :
    ElipseOutcome :=
  if ¬ (coord_columns.any (fun c => c = "x" || c = "y")) then .noXY
  else
    match collectBlocks covBlock points with
    | .error p => .keyError p
    | .ok blks =>
      .ok (blks.map (fun pb => (pb.1, coord_error_elipse_row sqrt atan2 fmod pi pb.2)))

/-! ## Theorems -/

/-- Claim C9, counterexample: the weighting-method table does not contain
twenty names — it has twenty-two (the twenty robust methods plus "Ordinary"
and "Weighted"). -/
theorem weighting_methods_not_twenty : WEIGHTING_METHODS.length ≠ 20 := by
  decide

/-- Claim C9 (amended): the weighting-method table contains exactly
twenty-two method names in total, including "Ordinary" and "Weighted" which
carry no tuning constants, and the default tuning constants per method name
are fixed, with huber mapped to (1.345,), tukey to (4.685, 2), and hampel to
(1.7, 3.4, 8.5). -/
theorem weighting_methods_table :
    WEIGHTING_METHODS.length = 22 ∧
    WEIGHTING_METHODS.lookup "Ordinary" = some none ∧
    WEIGHTING_METHODS.lookup "Weighted" = some none ∧
    entry_tuning_constants none = [] ∧
    WEIGHTING_METHODS.lookup "Huber" = some (some .huber) ∧
    get_default_tuning_constants .huber = [1.345] ∧
    WEIGHTING_METHODS.lookup "Tukey" = some (some .tukey) ∧
    get_default_tuning_constants .tukey = [4.685, 2] ∧
    WEIGHTING_METHODS.lookup "Hampel" = some (some .hampel) ∧
    get_default_tuning_constants .hampel = [1.7, 3.4, 8.5] := by
  exact ⟨rfl, rfl, rfl, rfl, rfl, rfl, rfl, rfl, rfl, rfl⟩

/-- Claim C10: the claim states that `Solver.coord_correction_sigmas` is the
elementwise square root of `coord_correction_variances`; the code
(`solver.py`, line 67) instead returns the square root of
`residual_variances`.  At residual-variance list `[4]` and
coordinate-correction-variance list `[9]` (with the square root abstracted
as the identity to expose which series is used), the code produces the image
of the residual series, which differs from the image of the
coordinate-correction series. -/
theorem coord_correction_sigmas_uses_residuals :
    coord_correction_sigmas (fun q => q) [4] [9] = [4] ∧
    claimed_coord_correction_sigmas (fun q => q) [4] [9] = [9] ∧
    coord_correction_sigmas (fun q => q) [4] [9] ≠
      claimed_coord_correction_sigmas (fun q => q) [4] [9] := by
  refine ⟨rfl, rfl, ?_⟩
  decide

/-- Claim C2, counterexample: a NaN entry is not mapped to a weight
coefficient of 0 — `inf_to_zero` passes `nan=np.nan` to `np.nan_to_num`, so
NaN survives. -/
theorem inf_to_zero_nan_not_zero :
    inf_to_zero (fun q => q) [FVal.nan] = [FVal.nan] ∧
    FVal.nan ≠ FVal.fin 0 := by
  exact ⟨rfl, by decide⟩

/-- Claim C2 (amended): for every weighting function and every input vector
of normalized values, each +∞ or −∞ entry is mapped to a weight coefficient
of exactly 0, each NaN entry is left as NaN, and each finite entry is passed
to the underlying weighting function unchanged. -/
theorem inf_to_zero_spec (f : ℚ → ℚ) (v : List FVal) (i : ℕ)
    (h : i < v.length) :
    (inf_to_zero f v).length = v.length ∧
    (v.getD i .nan = .posInf → (inf_to_zero f v).getD i .nan = .fin 0) ∧
    (v.getD i .nan = .negInf → (inf_to_zero f v).getD i .nan = .fin 0) ∧
    (v.getD i .nan = .nan → (inf_to_zero f v).getD i .nan = .nan) ∧
    (∀ q, v.getD i .nan = .fin q → (inf_to_zero f v).getD i .nan = .fin (f q)) := by
  have hlen : (inf_to_zero f v).length = v.length := by
    simp [inf_to_zero]
  have hm : i < (inf_to_zero f v).length := by omega
  have hget : (inf_to_zero f v).getD i .nan = inf_to_zero_entry f (v.getD i .nan) := by
    rw [List.getD_eq_getElem _ _ h, List.getD_eq_getElem _ _ hm]
    simp [inf_to_zero]
  refine ⟨hlen, ?_, ?_, ?_, ?_⟩
  · intro hv; rw [hget, hv]; rfl
  · intro hv; rw [hget, hv]; rfl
  · intro hv; rw [hget, hv]; rfl
  · intro q hv; rw [hget, hv]; rfl

/-- Witness for `inf_to_zero_spec` at the vector `[+∞, 7]`. -/
theorem inf_to_zero_spec_witness :
    (inf_to_zero (fun q => q + 1) [FVal.posInf, FVal.fin 7]).getD 0 .nan = .fin 0 :=
  (inf_to_zero_spec (fun q => q + 1) [FVal.posInf, FVal.fin 7] 0 (by decide)).2.1 rfl

/-- Claim C5: if at least one variance entry is negative, a single
`InvalidVarianceWarning` is emitted carrying the number of affected entries
and the current iteration number, the negative entries are clamped to zero,
and the square root of the clamped array is returned; if no entry is
negative, no warning is emitted and the array is not clamped. -/
theorem calculate_sigma_spec (sqrt : ℚ → ℚ) (current_iter : ℕ) (var_v : List ℚ) :
    ((∃ x ∈ var_v, x < 0) →
      calculate_sigma sqrt current_iter var_v =
        ([⟨(var_v.filter (fun x => x < 0)).length, current_iter⟩],
         (var_v.map (fun x => max x 0)).map sqrt)) ∧
    ((∀ x ∈ var_v, 0 ≤ x) →
      calculate_sigma sqrt current_iter var_v = ([], var_v.map sqrt)) := by
  constructor
  · rintro ⟨x, hx, hneg⟩
    have hmem : x ∈ var_v.filter (fun x => decide (x < 0)) := by
      rw [List.mem_filter]
      exact ⟨hx, by simpa using hneg⟩
    have hpos : 0 < (var_v.filter (fun x => x < 0)).length :=
      List.length_pos.mpr (List.ne_nil_of_mem hmem)
    simp only [calculate_sigma, if_pos hpos]
  · intro hnn
    have hnil : var_v.filter (fun x => x < 0) = [] := by
      rw [List.filter_eq_nil_iff]
      intro a ha
      simpa using hnn a ha
    simp only [calculate_sigma, hnil]
    simp

/-- Witness for `calculate_sigma_spec`: the array `[-1, 2]` in iteration 3
produces one warning naming 1 affected entry and iteration 3, and the
clamped values `[0, 2]`. -/
theorem calculate_sigma_spec_witness :
    calculate_sigma (fun q => q) 3 [-1, 2] = ([⟨1, 3⟩], [0, 2]) := by
  have h := (calculate_sigma_spec (fun q => q) 3 [-1, 2]).1
    ⟨-1, by decide, by norm_num⟩
  simpa using h

/-- The sum of an elementwise `zipWith` as an indexed finite sum. -/
theorem zipWith_sum_eq_finset_sum (f : ℚ → ℚ → ℚ) :
    ∀ (l1 l2 : List ℚ), (List.zipWith f l1 l2).sum =
      ∑ i ∈ Finset.range (min l1.length l2.length),
        f (l1.getD i 0) (l2.getD i 0) := by
  intro l1
  induction l1 with
  | nil => intro l2; simp
  | cons a l1 ih =>
    intro l2
    cases l2 with
    | nil => simp
    | cons b l2 =>
      have hmin : min (a :: l1).length (b :: l2).length =
          min l1.length l2.length + 1 := by
        simp [Nat.succ_min_succ]
      rw [List.zipWith_cons_cons, List.sum_cons, hmin, Finset.sum_range_succ', ih]
      simp [add_comm]

/-- The sum of the squares of a list as an indexed finite sum. -/
theorem map_sq_sum_eq_finset_sum :
    ∀ l : List ℚ, (l.map (fun c => c ^ 2)).sum =
      ∑ i ∈ Finset.range l.length, (l.getD i 0) ^ 2 := by
  intro l
  induction l with
  | nil => simp
  | cons a l ih =>
    rw [List.map_cons, List.sum_cons, List.length_cons, Finset.sum_range_succ', ih]
    simp [add_comm]

/-- Claim C7: with a positive movable-tie-point count, the
coordinate-correction variance is the sum of squared coordinate corrections
— weighted by the point weights when a point-weight matrix exists,
unweighted otherwise — divided by the count; with a zero count it is
exactly 1. -/
theorem coord_corrections_variance_spec (n_movable : ℕ)
    (point_weights : Option (List ℚ)) (cc : List ℚ) :
    (∀ w, 0 < n_movable → point_weights = some w →
      get_coord_corrections_variance n_movable point_weights cc =
        (∑ i ∈ Finset.range (min cc.length w.length),
          (cc.getD i 0) ^ 2 * (w.getD i 0)) / (n_movable : ℚ)) ∧
    (0 < n_movable → point_weights = none →
      get_coord_corrections_variance n_movable point_weights cc =
        (∑ i ∈ Finset.range cc.length, (cc.getD i 0) ^ 2) / (n_movable : ℚ)) ∧
    (n_movable = 0 → get_coord_corrections_variance n_movable point_weights cc = 1) := by
  refine ⟨?_, ?_, ?_⟩
  · intro w hn hw
    rw [get_coord_corrections_variance, if_pos hn, hw,
      calculate_coord_coorections_variance]
    simp only [zipWith_sum_eq_finset_sum]
  · intro hn hw
    rw [get_coord_corrections_variance, if_pos hn, hw,
      calculate_coord_coorections_variance]
    simp only [map_sq_sum_eq_finset_sum]
  · intro hn
    rw [get_coord_corrections_variance, if_neg (by omega)]

/-- Witness for `coord_corrections_variance_spec`: corrections `[1, 2]` with
point weights `[3, 1]` and 2 movable tie points give `(3 + 4) / 2`. -/
theorem coord_corrections_variance_spec_witness :
    get_coord_corrections_variance 2 (some [3, 1]) [1, 2] = 7 / 2 := by
  have h := (coord_corrections_variance_spec 2 (some [3, 1]) [1, 2]).1
    [3, 1] (by norm_num) rfl
  rw [h]
  rw [show ([1, 2] : List ℚ).length ⊓ ([3, 1] : List ℚ).length = 2 from rfl]
  rw [Finset.sum_range_succ, Finset.sum_range_succ, Finset.sum_range_zero]
  norm_num

/-- Claim C3: for the `refreshable_property` fields of `AdjustmentResults`
(all declared with `refresh="_is_deprecated"` and `reset_all=True`): when the
solver's iteration counter equals the `n_iter` value recorded in the cache
and the field is cached, an access returns the cached value, leaves the
cache untouched and performs no recomputation; and whenever the counter has
advanced past the recorded value, the next access clears the entire cache in
bulk and recomputes, so the resulting cache holds nothing but the freshly
computed field. -/
theorem results_cache_spec (compute : String → ℕ → ℕ) (cur : ℕ) (name : String)
    (c : Cache) (v : ℕ) :
    (c.lookup "n_iter" = some cur → c.lookup name = some v →
      get_value compute cur name c = (v, c, false)) ∧
    ((c.lookup "n_iter").getD 0 < cur →
      get_value compute cur name c =
        (compute name cur, [(name, compute name cur)], true)) := by
  constructor
  · intro hn hv
    have hdep : is_deprecated cur c = false := by
      simp [is_deprecated, hn]
    rw [get_value, hdep, hv]
    simp
  · intro hadv
    have hdep : is_deprecated cur c = true := by
      simpa [is_deprecated] using hadv
    rw [get_value, hdep]
    simp

/-- Witness for `results_cache_spec`: with the counter at 2, a cache holding
`n_iter = 2` and `a = 7` serves `a` from the cache unchanged, with no
recomputation. -/
theorem results_cache_spec_witness :
    get_value (fun _ n => n) 2 "a" [("n_iter", 2), ("a", 7)] =
      (7, [("n_iter", 2), ("a", 7)], false) :=
  (results_cache_spec (fun _ n => n) 2 "a" [("n_iter", 2), ("a", 7)] 7).1
    (by decide) (by decide)

/-- Claim C4: when the solve of an iteration does not converge,
`Solver.iterate` returns `False` and leaves the solver state — in particular
the control-point coordinates — exactly as it was; and whenever a call of
`iterate` changes the coordinates, that call returned `True` with a
converged solve. -/
theorem iterate_nonconvergence (env : ℕ → IterStep) (s : SolverState) :
    ((env s.current).svd_converge = false →
      Solver.iterate env s = (false, s)) ∧
    (∀ b s', Solver.iterate env s = (b, s') → s'.coords ≠ s.coords →
      b = true ∧ (env s.current).svd_converge = true) := by
  constructor
  · intro hsvd
    rw [Solver.iterate, hsvd]
    simp
  · intro b s' hit hne
    rw [Solver.iterate] at hit
    by_cases hsvd : (env s.current).svd_converge
    · rw [if_pos hsvd] at hit
      exact ⟨by injection hit with h1 _; exact h1.symm, hsvd⟩
    · rw [if_neg hsvd] at hit
      injection hit with h1 h2
      exact absurd (congrArg SolverState.coords h2.symm) hne

/-- Witness for `iterate_nonconvergence`: a run whose solve fails at counter
0 leaves the state `⟨0, [5], [9]⟩` untouched and reports `False`. -/
theorem iterate_nonconvergence_witness :
    Solver.iterate (fun _ => ⟨false, [1], [1]⟩) ⟨0, [5], [9]⟩ =
      (false, ⟨0, [5], [9]⟩) :=
  (iterate_nonconvergence (fun _ => ⟨false, [1], [1]⟩) ⟨0, [5], [9]⟩).1 rfl

/-- Shifting `advanceN`: `n + 1` steps from `s` are `n` steps from one step
after `s`. -/
theorem advanceN_succ_left (env : ℕ → IterStep) (s : SolverState) (n : ℕ) :
    advanceN env s (n + 1) = advanceN env (advance env s) n := by
  induction n with
  | zero => rfl
  | succ n ih =>
    show advance env (advanceN env s (n + 1)) = _
    rw [ih]
    rfl

/-- Inverting a failed `Solver.iterate`: the solve did not converge and the
state is untouched. -/
theorem iterate_false_elim (env : ℕ → IterStep) (s t : SolverState)
    (h : Solver.iterate env s = (false, t)) :
    (env s.current).svd_converge = false ∧ t = s := by
  rw [Solver.iterate] at h
  by_cases hsvd : (env s.current).svd_converge
  · rw [if_pos hsvd] at h
    cases h
  · rw [if_neg hsvd] at h
    injection h with _ h2
    exact ⟨by simpa using hsvd, h2.symm⟩

/-- Inverting a successful `Solver.iterate`: the solve converged and the
state took one `advance` step. -/
theorem iterate_true_elim (env : ℕ → IterStep) (s t : SolverState)
    (h : Solver.iterate env s = (true, t)) :
    (env s.current).svd_converge = true ∧ t = advance env s := by
  rw [Solver.iterate] at h
  by_cases hsvd : (env s.current).svd_converge
  · rw [if_pos hsvd] at h
    injection h with _ h2
    exact ⟨hsvd, h2.symm⟩
  · rw [if_neg hsvd] at h
    cases h

/-- One unfolding of `Solver.solve`. -/
theorem solve_unfold (env : ℕ → IterStep) (cfg : ConfigSolver) (s : SolverState) :
    Solver.solve env cfg s =
      match Solver.iterate env s with
      | (false, s') => (false, s')
      | (true, s') =>
        if check_condition_stop cfg s' then (true, s')
        else Solver.solve env cfg s' := by
  rw [Solver.solve]
  rcases hit : Solver.iterate env s with ⟨b', t⟩
  cases b' <;> simp [hit]

/-- `Solver.solve` after a failed iteration. -/
theorem solve_eq_of_fail (env : ℕ → IterStep) (cfg : ConfigSolver)
    (s t : SolverState) (h : Solver.iterate env s = (false, t)) :
    Solver.solve env cfg s = (false, t) := by
  rw [solve_unfold, h]

/-- `Solver.solve` after a successful iteration that meets the stopping
condition. -/
theorem solve_eq_of_stop (env : ℕ → IterStep) (cfg : ConfigSolver)
    (s t : SolverState) (h : Solver.iterate env s = (true, t))
    (hstop : check_condition_stop cfg t = true) :
    Solver.solve env cfg s = (true, t) := by
  rw [solve_unfold, h]
  show (if check_condition_stop cfg t then (true, t)
    else Solver.solve env cfg t) = (true, t)
  rw [hstop]
  simp

/-- `Solver.solve` after a successful iteration that does not meet the
stopping condition. -/
theorem solve_eq_of_go (env : ℕ → IterStep) (cfg : ConfigSolver)
    (s t : SolverState) (h : Solver.iterate env s = (true, t))
    (hstop : check_condition_stop cfg t = false) :
    Solver.solve env cfg s = Solver.solve env cfg t := by
  rw [solve_unfold, h]
  show (if check_condition_stop cfg t then (true, t)
    else Solver.solve env cfg t) = _
  rw [hstop]
  simp

/-- Claim C1: a call of `Solver.solve` performs some number `n` of
`iterate` calls whose solves all converge, stopping at the first
post-iteration state where the increments-within-threshold or the
max-iteration condition holds and returning `True` there (after at least one
iteration); it returns `False` exactly when the `n+1`-st iterate's solve
fails, every earlier post-iteration state having satisfied neither stopping
condition. -/
theorem solve_characterization (env : ℕ → IterStep) (cfg : ConfigSolver)
    (s : SolverState) (b : Bool) (s' : SolverState)
    (h : Solver.solve env cfg s = (b, s')) :
    ∃ n,
      (∀ k, k < n → (env (advanceN env s k).current).svd_converge = true) ∧
      (∀ k, 0 < k → k < n → check_condition_stop cfg (advanceN env s k) = false) ∧
      (b = true → 0 < n ∧ s' = advanceN env s n ∧
        check_condition_stop cfg s' = true) ∧
      (b = false → s' = advanceN env s n ∧
        (env s'.current).svd_converge = false ∧
        (0 < n → check_condition_stop cfg s' = false)) := by
  revert h
  induction s using Solver.solve.induct env cfg with
  | case1 s t hit =>
    intro h
    rw [solve_eq_of_fail env cfg s t hit] at h
    obtain ⟨hsvd, ht⟩ := iterate_false_elim env s t hit
    injection h with hb hs
    subst hb hs ht
    refine ⟨0, ?_, ?_, ?_, ?_⟩
    · intro k hk
      exact absurd hk (Nat.not_lt_zero k)
    · intro k _ hk
      exact absurd hk (Nat.not_lt_zero k)
    · intro hc
      cases hc
    · intro _
      refine ⟨rfl, hsvd, ?_⟩
      intro h0
      exact absurd h0 (by omega)
  | case2 s t hit hstop =>
    intro h
    rw [solve_eq_of_stop env cfg s t hit hstop] at h
    obtain ⟨hsvd, ht⟩ := iterate_true_elim env s t hit
    injection h with hb hs
    subst hb hs
    refine ⟨1, ?_, ?_, ?_, ?_⟩
    · intro k hk
      interval_cases k
      simpa using hsvd
    · intro k hk0 hk1
      omega
    · intro _
      exact ⟨by omega, by rw [ht]; rfl, hstop⟩
    · intro hc
      cases hc
  | case3 s t hit hstop ih =>
    intro h
    have hstop' : check_condition_stop cfg t = false := by
      simpa using hstop
    rw [solve_eq_of_go env cfg s t hit hstop'] at h
    obtain ⟨hsvd, ht⟩ := iterate_true_elim env s t hit
    obtain ⟨n, ih1, ih2, ih3, ih4⟩ := ih h
    have hshift : ∀ m, advanceN env t m = advanceN env s (m + 1) := by
      intro m
      rw [advanceN_succ_left, ht]
    refine ⟨n + 1, ?_, ?_, ?_, ?_⟩
    · intro k hk
      cases k with
      | zero => simpa using hsvd
      | succ j =>
        have := ih1 j (by omega)
        rwa [hshift j] at this
    · intro k hk0 hkn
      cases k with
      | zero => omega
      | succ j =>
        cases Nat.eq_zero_or_pos j with
        | inl hj0 =>
          subst hj0
          have : advanceN env s 1 = t := (hshift 0).symm
          rwa [this]
        | inr hjpos =>
          have := ih2 j hjpos (by omega)
          rwa [hshift j] at this
    · intro hb
      obtain ⟨hn, hs', hst⟩ := ih3 hb
      exact ⟨by omega, by rw [hs', hshift n], hst⟩
    · intro hb
      obtain ⟨hs', hsvd', hst⟩ := ih4 hb
      refine ⟨by rw [hs', hshift n], hsvd', ?_⟩
      intro _
      cases Nat.eq_zero_or_pos n with
      | inl hn0 =>
        subst hn0
        rw [hs']
        exact hstop'
      | inr hnpos => exact hst hnpos

/-- Witness for `solve_characterization`: with every solve converging,
increments `[1]`, increment magnitudes `[0]`, threshold 1 and `max_iter` 5,
`solve` from `⟨0, [0], [7]⟩` stops after one iteration at `⟨1, [1], [0]⟩`
with result `True`. -/
theorem solve_characterization_witness :
    ∃ n,
      (∀ k, k < n →
        ((fun (_ : ℕ) => IterStep.mk true [1] [0])
          ((advanceN (fun _ => IterStep.mk true [1] [0])
            (SolverState.mk 0 [0] [7]) k).current)).svd_converge = true) ∧
      (∀ k, 0 < k → k < n →
        check_condition_stop (ConfigSolver.mk 5 1)
          (advanceN (fun _ => IterStep.mk true [1] [0])
            (SolverState.mk 0 [0] [7]) k) = false) ∧
      (true = true → 0 < n ∧
        SolverState.mk 1 [1] [0] =
          advanceN (fun _ => IterStep.mk true [1] [0])
            (SolverState.mk 0 [0] [7]) n ∧
        check_condition_stop (ConfigSolver.mk 5 1)
          (SolverState.mk 1 [1] [0]) = true) ∧
      (true = false →
        SolverState.mk 1 [1] [0] =
          advanceN (fun _ => IterStep.mk true [1] [0])
            (SolverState.mk 0 [0] [7]) n ∧
        ((fun (_ : ℕ) => IterStep.mk true [1] [0])
          ((SolverState.mk 1 [1] [0]).current)).svd_converge = false ∧
        (0 < n → check_condition_stop (ConfigSolver.mk 5 1)
          (SolverState.mk 1 [1] [0]) = false)) := by
  have hit : Solver.iterate (fun _ => IterStep.mk true [1] [0])
      (SolverState.mk 0 [0] [7]) = (true, SolverState.mk 1 [1] [0]) := by
    rw [Solver.iterate]
    norm_num [advance]
  have hstop : check_condition_stop (ConfigSolver.mk 5 1)
      (SolverState.mk 1 [1] [0]) = true := by
    rw [check_condition_stop, is_increments_within_threshold]
    norm_num
  exact solve_characterization (fun _ => IterStep.mk true [1] [0])
    (ConfigSolver.mk 5 1) (SolverState.mk 0 [0] [7]) true
    (SolverState.mk 1 [1] [0])
    (solve_eq_of_stop _ _ _ _ hit hstop)

/-- `countFinite` ignores a missing cell. -/
theorem countFinite_cons_none (l : List (Option ℚ)) :
    countFinite (none :: l) = countFinite l := rfl

/-- `countFinite` counts a finite cell. -/
theorem countFinite_cons_some (q : ℚ) (l : List (Option ℚ)) :
    countFinite (some q :: l) = countFinite l + 1 := by
  simp [countFinite]

/-- `assignCells` keeps the length of the cell list. -/
theorem assignCells_length (k : ℕ) (l : List (Option ℚ)) :
    (assignCells k l).2.length = l.length := by
  induction l generalizing k with
  | nil => rfl
  | cons c rest ih =>
    cases c <;> simp [assignCells, ih]

/-- The counter threaded out of `assignCells` grows by the number of finite
cells. -/
theorem assignCells_fst (k : ℕ) (l : List (Option ℚ)) :
    (assignCells k l).1 = k + countFinite l := by
  induction l generalizing k with
  | nil => simp [assignCells, countFinite]
  | cons c rest ih =>
    cases c with
    | none => simp [assignCells, ih, countFinite_cons_none]
    | some q =>
      simp only [assignCells, ih, countFinite_cons_some]
      omega

/-- The index `assignCells` places at position `i`: the running counter plus
the number of finite cells strictly before `i` when the cell is finite, the
invalid sentinel otherwise. -/
theorem assignCells_getD (k : ℕ) (l : List (Option ℚ)) (i : ℕ)
    (h : i < l.length) :
    (assignCells k l).2.getD i 0 =
      if (l.getD i none).isSome then ((k + countFinite (l.take i) : ℕ) : ℤ)
      else INVALID_INDEX := by
  induction l generalizing k i with
  | nil => simp at h
  | cons c rest ih =>
    cases c with
    | none =>
      cases i with
      | zero => simp [assignCells]
      | succ j =>
        have hj : j < rest.length := by simpa using h
        simp only [assignCells, List.getD_cons_succ, List.take_succ_cons,
          countFinite_cons_none]
        exact ih k j hj
    | some q =>
      cases i with
      | zero => simp [assignCells, countFinite]
      | succ j =>
        have hj : j < rest.length := by simpa using h
        simp only [assignCells, List.getD_cons_succ, List.take_succ_cons,
          countFinite_cons_some]
        rw [ih (k + 1) j hj]
        by_cases hs : (rest.getD j none).isSome
        · rw [if_pos hs, if_pos hs]
          push_cast
          ring_nf
        · rw [if_neg hs, if_neg hs]

/-- `assignCells` over an appended list splits with the counter advanced by
the finite cells of the first part. -/
theorem assignCells_append (k : ℕ) (l1 l2 : List (Option ℚ)) :
    (assignCells k (l1 ++ l2)).2 =
      (assignCells k l1).2 ++ (assignCells (k + countFinite l1) l2).2 := by
  induction l1 generalizing k with
  | nil => simp [assignCells, countFinite]
  | cons c rest ih =>
    cases c with
    | none =>
      simp only [List.cons_append, assignCells, countFinite_cons_none]
      simp [ih]
    | some q =>
      simp only [List.cons_append, assignCells, countFinite_cons_some]
      have harith : k + 1 + countFinite rest = k + (countFinite rest + 1) := by
        omega
      simp [ih, harith]

/-- Flattening the grid assignment agrees with assigning the flattened
cells — numpy's row-major order. -/
theorem assignRows_flatten (k : ℕ) (g : List (List (Option ℚ))) :
    (assignRows k g).2.flatten = (assignCells k g.flatten).2 := by
  induction g generalizing k with
  | nil => rfl
  | cons r rs ih =>
    simp only [assignRows, List.flatten_cons]
    rw [ih, assignCells_fst, ← assignCells_append]

/-- `assignRows` preserves the shape of the grid. -/
theorem assignRows_lengths (k : ℕ) (g : List (List (Option ℚ))) :
    (assignRows k g).2.map List.length = g.map List.length := by
  induction g generalizing k with
  | nil => rfl
  | cons r rs ih =>
    simp [assignRows, assignCells_length, ih]

/-- The valid entries produced by `assignCells`, in order, are the
consecutive integers starting at the running counter. -/
theorem assignCells_filter (k : ℕ) (l : List (Option ℚ)) :
    (assignCells k l).2.filter (fun x => x ≠ INVALID_INDEX) =
      (List.range (countFinite l)).map (fun j => ((k + j : ℕ) : ℤ)) := by
  induction l generalizing k with
  | nil => simp [assignCells, countFinite]
  | cons c rest ih =>
    cases c with
    | none =>
      simp only [assignCells, countFinite_cons_none]
      rw [List.filter_cons_of_neg (by simp)]
      exact ih k
    | some q =>
      simp only [assignCells, countFinite_cons_some]
      rw [List.filter_cons_of_pos (by simp [INVALID_INDEX])]
      rw [ih (k + 1), List.range_succ_eq_map]
      simp only [List.map_cons, List.map_map]
      refine congrArg₂ _ (by simp) ?_
      refine List.map_congr_left ?_
      intro j _
      simp [Function.comp]
      ring_nf

/-- Folding `max` over the indices produced by `assignCells`, starting from
any value between the sentinel and the counter: the result is the last
assigned index, or the start value when nothing is assigned. -/
theorem assignCells_foldl_max (l : List (Option ℚ)) :
    ∀ (k : ℕ) (a : ℤ), -1 ≤ a → a ≤ (k : ℤ) →
      (assignCells k l).2.foldl max a =
        if countFinite l = 0 then a else ((k + countFinite l : ℕ) : ℤ) - 1 := by
  induction l with
  | nil =>
    intro k a _ _
    simp [assignCells, countFinite]
  | cons c rest ih =>
    intro k a h1 h2
    cases c with
    | none =>
      simp only [assignCells, List.foldl_cons, countFinite_cons_none]
      have hmax : max a INVALID_INDEX = a := by
        rw [INVALID_INDEX]
        exact max_eq_left h1
      rw [hmax]
      exact ih k a h1 h2
    | some q =>
      simp only [assignCells, List.foldl_cons, countFinite_cons_some]
      have hmax : max a (k : ℤ) = (k : ℤ) := max_eq_right h2
      rw [hmax, ih (k + 1) (k : ℤ) (by omega) (by push_cast; omega)]
      by_cases hcf : countFinite rest = 0
      · rw [if_pos hcf, if_neg (by omega), hcf]
        push_cast
        ring_nf
      · rw [if_neg hcf, if_neg (by omega)]
        push_cast
        ring_nf

/-- The start index of the orientation numbering is the total count of
finite coordinate cells (also when that count is zero, thanks to the
sentinel being `-1`). -/
theorem index_grid_max_succ (grid : List (List (Option ℚ))) :
    index_grid_max (map_coordinate_index grid) + 1 =
      (countFinite grid.flatten : ℤ) := by
  rw [index_grid_max, map_coordinate_index, assignRows_flatten]
  rw [assignCells_foldl_max grid.flatten 0 INVALID_INDEX
    (by norm_num [INVALID_INDEX]) (by norm_num [INVALID_INDEX])]
  by_cases hcf : countFinite grid.flatten = 0
  · rw [if_pos hcf, hcf, INVALID_INDEX]
    norm_num
  · rw [if_neg hcf]
    push_cast
    ring_nf

/-- Claim C8: the Indexer assigns, in row-major order, the column indices
`0 … k−1` to exactly the coordinate cells holding finite (estimated)
values — the cell at flattened position `i` gets the number of finite cells
strictly before it when finite and the invalid sentinel otherwise, the
valid indices read off in row-major order are exactly `0 … k−1`, the shape
of the grid is preserved — and the orientation indices (when stations carry
orientations) are the consecutive integers continuing immediately after the
largest coordinate index, i.e. starting at `k`. -/
theorem indexer_row_major (grid : List (List (Option ℚ)))
    (orientations : List String) :
    (map_coordinate_index grid).map List.length = grid.map List.length ∧
    (∀ i, i < grid.flatten.length →
      (map_coordinate_index grid).flatten.getD i 0 = specIndex grid.flatten i) ∧
    ((map_coordinate_index grid).flatten.filter (fun x => x ≠ INVALID_INDEX) =
      (List.range (countFinite grid.flatten)).map (fun (j : ℕ) => (j : ℤ))) ∧
    (map_orientation_index grid orientations =
      (List.range orientations.length).zipWith
        (fun i st => (st, (countFinite grid.flatten : ℤ) + (i : ℤ)))
        orientations) := by
  refine ⟨?_, ?_, ?_, ?_⟩
  · exact assignRows_lengths 0 grid
  · intro i hi
    rw [map_coordinate_index, assignRows_flatten,
      assignCells_getD 0 grid.flatten i hi, specIndex]
    simp
  · rw [map_coordinate_index, assignRows_flatten, assignCells_filter 0]
    exact List.map_congr_left (fun a _ => by simp)
  · rw [map_orientation_index]
    simp only [index_grid_max_succ]

/-- Witness for `indexer_row_major` at the grid
`[[some 1, none], [some 2, some 3]]` with one orientation station: the cell
at flattened position 1 (the missing one) carries the sentinel. -/
theorem indexer_row_major_witness :
    (map_coordinate_index [[some 1, none], [some 2, some 3]]).flatten.getD 1 0 =
      specIndex ([[some (1 : ℚ), none], [some 2, some 3]]).flatten 1 :=
  (indexer_row_major [[some 1, none], [some 2, some 3]] ["ST1"]).2.1 1 (by decide)

/-- Claim C6, counterexample: with columns `x, y` and points `P1, P2` where
`P1` has both coordinates estimated (its 2×2 covariance block exists) and
`P2` does not, the code does not produce ellipse parameters for exactly the
fully estimated points — the `.loc` slice of the missing block fails
(`KeyError` on `P2`) and no table at all is produced. -/
theorem coord_error_elipses_not_skipping :
    get_coord_error_elipses (fun q => q) (fun a _ => a) (fun a _ => a) 0
        ["x", "y"] ["P1", "P2"]
        (fun p => if p = "P1" then some ⟨1, 1, 0⟩ else none) =
      ElipseOutcome.keyError "P2" ∧
    (ElipseOutcome.keyError "P2").isOk = false := by
  exact ⟨rfl, rfl⟩

/-- When every point's 2×2 block exists, the loop collects them all in
order. -/
theorem collectBlocks_all_some (covBlock : String → Option CovBlock) :
    ∀ points : List String, (∀ p ∈ points, (covBlock p).isSome) →
      collectBlocks covBlock points =
        .ok (points.map (fun p => (p, (covBlock p).getD ⟨0, 0, 0⟩))) := by
  intro points
  induction points with
  | nil => intro _; rfl
  | cons p ps ih =>
    intro h
    obtain ⟨blk, hblk⟩ := Option.isSome_iff_exists.mp (h p (by simp))
    have hrest := ih (fun q hq => h q (List.mem_cons_of_mem p hq))
    simp only [collectBlocks, hblk, hrest, List.map_cons]
    simp [hblk]

/-- When some point's 2×2 block is missing, the loop never returns a
result list. -/
theorem collectBlocks_missing (covBlock : String → Option CovBlock) :
    ∀ points : List String, (∃ p ∈ points, covBlock p = none) →
      ∀ l, collectBlocks covBlock points ≠ .ok l := by
  intro points
  induction points with
  | nil =>
    rintro ⟨p, hp, _⟩
    simp at hp
  | cons p ps ih =>
    rintro ⟨p0, hp0mem, hp0⟩ l
    rcases List.mem_cons.mp hp0mem with h1 | h1
    · subst h1
      simp [collectBlocks, hp0]
    · cases hcb : covBlock p with
      | none => simp [collectBlocks, hcb]
      | some blk =>
        cases hrec : collectBlocks covBlock ps with
        | error q => simp [collectBlocks, hcb, hrec]
        | ok l2 => exact absurd hrec (ih ⟨p0, h1, hp0⟩ l2)

/-- Claim C6 (amended): when no coordinate column is `x` or `y`, no
ellipse table is computed; when every control point has both `x` and `y`
estimated, the table covers exactly all control points and, for each, with
`var_x`, `var_y`, `cov_xy` from its 2×2 coordinate covariance block, the
semi-major axis is `sqrt((var_x+var_y)/2 + sqrt(((var_x−var_y)/2)² +
cov_xy²))`, the semi-minor axis is `sqrt((var_x+var_y)/2 −
sqrt(((var_x−var_y)/2)² + cov_xy²))` and the orientation is
`atan2(2·cov_xy, var_x−var_y)/2` reduced modulo π; but when some point
lacks an estimated `x` or `y`, the block lookup fails and no table is
produced (rather than the point being skipped). -/
theorem coord_error_elipses_spec (sqrt : ℚ → ℚ) (atan2 fmod : ℚ → ℚ → ℚ)
    (pi : ℚ) (cols points : List String)
    (covBlock : String → Option CovBlock) :
    (cols.any (fun c => c = "x" || c = "y") = false →
      get_coord_error_elipses sqrt atan2 fmod pi cols points covBlock =
        .noXY) ∧
    (cols.any (fun c => c = "x" || c = "y") = true →
      (∀ p ∈ points, (covBlock p).isSome) →
      get_coord_error_elipses sqrt atan2 fmod pi cols points covBlock =
        .ok (points.map (fun p =>
          (p, coord_error_elipse_row sqrt atan2 fmod pi
            ((covBlock p).getD ⟨0, 0, 0⟩))))) ∧
    (cols.any (fun c => c = "x" || c = "y") = true →
      (∃ p ∈ points, covBlock p = none) →
      (get_coord_error_elipses sqrt atan2 fmod pi cols points covBlock).isOk =
        false) ∧
    (∀ blk : CovBlock,
      (coord_error_elipse_row sqrt atan2 fmod pi blk).a =
        sqrt ((blk.var_x + blk.var_y) / 2 +
          sqrt (((blk.var_x - blk.var_y) / 2) ^ 2 + blk.cov_xy ^ 2)) ∧
      (coord_error_elipse_row sqrt atan2 fmod pi blk).b =
        sqrt ((blk.var_x + blk.var_y) / 2 -
          sqrt (((blk.var_x - blk.var_y) / 2) ^ 2 + blk.cov_xy ^ 2)) ∧
      (coord_error_elipse_row sqrt atan2 fmod pi blk).phi =
        fmod (atan2 (2 * blk.cov_xy) (blk.var_x - blk.var_y) / 2) pi) := by
  refine ⟨?_, ?_, ?_, ?_⟩
  · intro hno
    simp [get_coord_error_elipses, hno]
  · intro hany hall
    rw [get_coord_error_elipses, if_neg (by simp [hany])]
    rw [collectBlocks_all_some covBlock points hall]
    simp [List.map_map, Function.comp]
  · intro hany hmiss
    rw [get_coord_error_elipses, if_neg (by simp [hany])]
    cases hcb : collectBlocks covBlock points with
    | error p => rfl
    | ok l => exact absurd hcb (collectBlocks_missing covBlock points hmiss l)
  · intro blk
    exact ⟨rfl, rfl, rfl⟩

/-- Witness for `coord_error_elipses_spec`: one point with both coordinates
estimated and covariance block `(1, 2, 3)` yields a one-row table. -/
theorem coord_error_elipses_spec_witness :
    get_coord_error_elipses (fun q => q) (fun a _ => a) (fun a _ => a) 0
        ["x", "y"] ["P1"] (fun _ => some ⟨1, 2, 3⟩) =
      .ok [("P1", coord_error_elipse_row (fun q => q) (fun a _ => a)
        (fun a _ => a) 0 ⟨1, 2, 3⟩)] := by
  have h := (coord_error_elipses_spec (fun q => q) (fun a _ => a)
    (fun a _ => a) 0 ["x", "y"] ["P1"] (fun _ => some ⟨1, 2, 3⟩)).2.1
    (by decide) (by intro p _; rfl)
  simpa using h

end QNET
